import Mathlib

/-!
Shallow embedding of `src/main.rs` of the `charify` repository (an
image/GIF to ASCII-art converter) together with theorems settling the
specification claims about it.

The Rust program's `f32`/`f64` arithmetic is embedded exactly over `ℚ`;
Rust's `.round()` (round half away from zero) and the saturating
`as usize`/`as u32` casts (truncation toward zero, negative saturating
to 0) are modelled explicitly.
-/

namespace Charify

/-- The glyph ramp `ASCII_CHARS_SIMPLE: b" .:-=+*#%@"` from `main.rs`,
ordered darkest to brightest. -/
def ASCII_CHARS_SIMPLE : List Char := [' ', '.', ':', '-', '=', '+', '*', '#', '%', '@']

/-- `ASCII_LEN_SIMPLE = ASCII_CHARS_SIMPLE.len()` from `main.rs`. -/
def ASCII_LEN_SIMPLE : Nat := ASCII_CHARS_SIMPLE.length

/-- `ASPECT_RATIO_CORRECTION: f64 = 0.55` from `main.rs`. -/
def ASPECT_RATIO_CORRECTION : ℚ := 55 / 100

/-- `MIN_FRAME_DELAY_MS: u64 = 20` from `main.rs`. -/
def MIN_FRAME_DELAY_MS : Nat := 20

/-- Rust's `f64::round` / `f32::round`: round half away from zero. -/
def rustRound (q : ℚ) : ℤ := if 0 ≤ q then ⌊q + 1 / 2⌋ else -⌊-q + 1 / 2⌋

/-- Rust's `f32::clamp(self, lo, hi)`: `min (max self lo) hi`. -/
def rustClamp (x lo hi : ℚ) : ℚ := min (max x lo) hi

/-- The contrast-adjustment step of `image_to_ascii` (`main.rs` lines
109-115): if `contrast != 1.0` then
`(contrast * (luminance - 128.0) + 128.0).clamp(0.0, 255.0)` else the
luminance unchanged. -/
def adjusted_luminance (contrast luminance : ℚ) : ℚ :=
  if contrast ≠ 1 then rustClamp (contrast * (luminance - 128) + 128) 0 255 else luminance

/-- The inversion step of `image_to_ascii` (`main.rs` lines 118-122):
`if invert { 255.0 - adjusted } else { adjusted }`. -/
def mapped_intensity (invert : Bool) (adjusted : ℚ) : ℚ :=
  if invert then 255 - adjusted else adjusted

/-- The glyph-index computation of `image_to_ascii` (`main.rs` line 123):
`((mapped_intensity / 255.0) * (ascii_len - 1) as f64).round() as usize`,
on the luminance after contrast adjustment and inversion. -/
def char_index (invert : Bool) (contrast luminance : ℚ) : Nat :=
  (rustRound (mapped_intensity invert (adjusted_luminance contrast luminance) / 255 *
      ((ASCII_LEN_SIMPLE - 1 : Nat) : ℚ))).toNat

/-- The glyph selection of `image_to_ascii` (`main.rs` line 124):
`ascii_chars[char_index.min(ascii_len - 1)] as char`. -/
def glyph_char (invert : Bool) (contrast luminance : ℚ) : Char :=
  ASCII_CHARS_SIMPLE.getD (min (char_index invert contrast luminance) (ASCII_LEN_SIMPLE - 1)) ' '

/-- The output-height computation of `image_to_ascii` (`main.rs` lines
61-63): `(img.height() as f64 * width as f64 * ASPECT_RATIO_CORRECTION /
img.width() as f64).max(1.0) as u32`.  The `as u32` cast truncates
toward zero. -/
def new_height (srcWidth srcHeight width : Nat) : Nat :=
  ⌊max ((srcHeight : ℚ) * (width : ℚ) * ASPECT_RATIO_CORRECTION / (srcWidth : ℚ)) 1⌋.toNat

/-- The spec's formula for the target height, for comparison with
`new_height`: `max(1, round(sourceHeight × targetWidth × 0.55 /
sourceWidth))`, i.e. rounding to the nearest integer before taking the
maximum with 1. -/
def new_height_spec (srcWidth srcHeight width : Nat) : Nat :=
  max 1 (rustRound ((srcHeight : ℚ) * (width : ℚ) * ASPECT_RATIO_CORRECTION /
    (srcWidth : ℚ))).toNat

/-- An RGBA pixel; channel values are bytes in `[0, 255]`. -/
structure Rgba where
  r : Nat
  g : Nat
  b : Nat
  a : Nat

/-- A decoded RGBA pixel buffer (the `image` crate's
`DynamicImage`/`RgbaImage`): dimensions plus a pixel lookup. -/
structure Image where
  width : Nat
  height : Nat
  pixel : Nat → Nat → Rgba

/-- A single-channel (`Luma8`) pixel buffer. -/
structure LumaImage where
  width : Nat
  height : Nat
  pixel : Nat → Nat → Nat

/-- Modelled from the spec: `resize_exact(width, new_height, Lanczos3)`
of the `image` crate, which is not in `src/`.  The contract used by the
claims is only that the output buffer has exactly the requested
dimensions ("Resize the source buffer to (targetWidth × targetHeight)");
the resampled pixel values (Lanczos3) are modelled as nearest-neighbour
samples, since no claim depends on them. -/
def resize_exact (img : Image) (w h : Nat) : Image :=
  { width := w, height := h,
    pixel := fun x y => img.pixel (x * img.width / max w 1) (y * img.height / max h 1) }

/-- Modelled from the spec: `gaussian_blur_f32` of the `imageproc`
crate, which is not in `src/` ("a mild Gaussian blur (sigma ≈ 0.6) to
suppress resampling noise").  The contract used by the claims is only
that the blur preserves the buffer's dimensions and produces byte
pixels; the smoothed values are modelled as the identity, since no
claim depends on them. -/
def gaussian_blur_f32 (img : Image) (_sigma : ℚ) : Image := img

/-- The BT.709 luminance computed on the color path (`main.rs` line
101): `0.2126 * r + 0.7152 * g + 0.0722 * b`. -/
def color_luminance (p : Rgba) : ℚ :=
  2126 / 10000 * (p.r : ℚ) + 7152 / 10000 * (p.g : ℚ) + 722 / 10000 * (p.b : ℚ)

/-- Modelled from the spec: `grayscale().to_luma8()` of the `image`
crate, which is not in `src/` ("discard color information and reduce to
a single-channel luminance buffer").  Contract used by the claims:
dimensions are preserved and each pixel becomes one luma byte, modelled
as the rounded BT.709 weighted sum of the channels. -/
def to_luma8 (img : Image) : LumaImage :=
  { width := img.width, height := img.height,
    pixel := fun x y => (rustRound (color_luminance (img.pixel x y))).toNat }

/-- The decimal digit characters of a natural number, as Rust's
`format!("{}", n)` renders the channel values inside the color escape
sequence. -/
def natDecimal (n : Nat) : List Char :=
  if h : n < 10 then [Nat.digitChar n]
  else natDecimal (n / 10) ++ [Nat.digitChar (n % 10)]
decreasing_by exact Nat.div_lt_self (by omega) (by omega)

/-- The ANSI foreground-color escape sequence
`format!("\x1B[38;2;{};{};{}m", r, g, b)` pushed before each glyph on
the color path (`main.rs` line 103), as a character list. -/
def color_code (r g b : Nat) : List Char :=
  ['\x1B', '[', '3', '8', ';', '2', ';'] ++ natDecimal r ++ [';'] ++ natDecimal g ++
    [';'] ++ natDecimal b ++ ['m']

/-- The `reset_code = "\x1B[0m"` of `main.rs` (line 68), appended at the
end of each row in color mode. -/
def reset_code : List Char := ['\x1B', '[', '0', 'm']

/-- `resized_img` of `image_to_ascii` (`main.rs` line 64): the source
buffer resized to `width × new_height`. -/
def resized_img (img : Image) (width : Nat) : Image :=
  resize_exact img width (new_height img.width img.height width)

/-- `final_img_buffer` of `image_to_ascii` in color mode (`main.rs`
lines 78-80): the resized RGBA buffer after the sigma-0.6 blur. -/
def final_img_buffer_color (img : Image) (width : Nat) : Image :=
  gaussian_blur_f32 (resized_img img width) (6 / 10)

/-- `final_img_buffer` of `image_to_ascii` in grayscale mode (`main.rs`
line 83): the resized buffer reduced to a Luma8 buffer, no blur. -/
def final_img_buffer_gray (img : Image) (width : Nat) : LumaImage :=
  to_luma8 (resized_img img width)

/-- One iteration of the inner pixel loop of `image_to_ascii` in color
mode (`main.rs` lines 96-131): the color escape for the (blurred) pixel
followed by the glyph chosen from its BT.709 luminance. -/
def color_pixel_chars (invert : Bool) (contrast : ℚ) (buf : Image) (x y : Nat) : List Char :=
  color_code (buf.pixel x y).r (buf.pixel x y).g (buf.pixel x y).b ++
    [glyph_char invert contrast (color_luminance (buf.pixel x y))]

/-- One output row of `image_to_ascii` in color mode, before the
row-terminating `reset_code` and newline (`main.rs` lines 95-132). -/
def color_line (invert : Bool) (contrast : ℚ) (buf : Image) (y : Nat) : List Char :=
  (List.range buf.width).flatMap (fun x => color_pixel_chars invert contrast buf x y)

/-- One output row of `image_to_ascii` in grayscale mode, before the
row-terminating newline (`main.rs` lines 95-132): one glyph per pixel,
the luminance being the Luma8 channel value directly. -/
def gray_line (invert : Bool) (contrast : ℚ) (buf : LumaImage) (y : Nat) : List Char :=
  (List.range buf.width).map (fun x => glyph_char invert contrast ((buf.pixel x y : ℚ)))

/-- `image_to_ascii` (`main.rs` lines 54-137): the returned string, as
the list of its characters.  Rows are emitted in row-major order; each
row is terminated in color mode by `reset_code` and a newline, in
grayscale mode by a newline. -/
def image_to_ascii (img : Image) (width : Nat) (invert : Bool) (contrast : ℚ)
    (use_color : Bool) : List Char :=
  if use_color then
    (List.range (final_img_buffer_color img width).height).flatMap (fun y =>
      color_line invert contrast (final_img_buffer_color img width) y ++ reset_code ++ ['\n'])
  else
    (List.range (final_img_buffer_gray img width).height).flatMap (fun y =>
      gray_line invert contrast (final_img_buffer_gray img width) y ++ ['\n'])

/-- One decoded GIF frame of `main`'s GIF branch: the RGBA buffer and
the decoded delay as the millisecond fraction returned by
`numer_denom_ms()` (numerator, denominator). -/
structure GifFrame where
  buffer : Image
  delayNumer : Nat
  delayDenom : Nat

/-- `main.rs` line 171: the stored per-frame delay
`Duration::from_millis(delay.0 as u64 / delay.1 as u64)` — truncating
integer division of the millisecond fraction, in whole milliseconds. -/
def delay_duration (numer denom : Nat) : Nat := numer / denom

/-- One element of `ascii_frames` (`main.rs` line 166): the rendered
text and the stored (un-floored) frame delay in milliseconds. -/
structure AsciiFrame where
  text : List Char
  delay : Nat

/-- The per-frame conversion of `main`'s GIF branch (`main.rs` lines
167-193): render the frame and store the original `delay_duration`. -/
def convert_frame (width : Nat) (invert : Bool) (contrast : ℚ) (use_color : Bool)
    (f : GifFrame) : AsciiFrame :=
  { text := image_to_ascii f.buffer width invert contrast use_color,
    delay := delay_duration f.delayNumer f.delayDenom }

/-- The GIF branch of `main` up to playback (`main.rs` lines 152-196):
fail with "GIF contains no frames." when the decoded frame list is
empty, otherwise convert every frame in order. -/
def process_gif (width : Nat) (invert : Bool) (contrast : ℚ) (use_color : Bool)
    (frames : List GifFrame) : Except String (List AsciiFrame) :=
  if frames.isEmpty then Except.error "GIF contains no frames."
  else Except.ok (frames.map (convert_frame width invert contrast use_color))

/-- The sleep applied after printing one frame at playback time
(`main.rs` lines 213-214):
`(*delay).max(Duration::from_millis(MIN_FRAME_DELAY_MS))`. -/
def effective_delay (delay : Nat) : Nat := max delay MIN_FRAME_DELAY_MS

/-- The sequence of sleeps of one playback pass over `ascii_frames`
(`main.rs` lines 205-215); the stored frames are only read there, never
modified. -/
def playback_sleeps (ascii_frames : List AsciiFrame) : List Nat :=
  ascii_frames.map (fun f => effective_delay f.delay)

/-- Whether a character is one of the ten ramp glyphs; vocabulary for
stating the shape of the rendered output. -/
def is_ramp_char (c : Char) : Bool := decide (c ∈ ASCII_CHARS_SIMPLE)

end Charify

namespace Charify

theorem adjusted_luminance_mem (contrast luminance : ℚ)
    (h0 : 0 ≤ luminance) (h255 : luminance ≤ 255) :
    0 ≤ adjusted_luminance contrast luminance ∧ adjusted_luminance contrast luminance ≤ 255 := by
  unfold adjusted_luminance rustClamp
  split
  · exact ⟨le_min (le_max_right _ _) (by norm_num), min_le_right _ _⟩
  · exact ⟨h0, h255⟩

theorem mapped_intensity_mem (invert : Bool) (adj : ℚ)
    (h0 : 0 ≤ adj) (h255 : adj ≤ 255) :
    0 ≤ mapped_intensity invert adj ∧ mapped_intensity invert adj ≤ 255 := by
  cases invert <;> simp [mapped_intensity] <;> constructor <;> linarith

theorem cast_ramp_top : ((ASCII_LEN_SIMPLE - 1 : Nat) : ℚ) = 9 := by
  norm_num [ASCII_LEN_SIMPLE, ASCII_CHARS_SIMPLE]

theorem getD_ramp_mem : ∀ m, m < 10 → ASCII_CHARS_SIMPLE.getD m ' ' ∈ ASCII_CHARS_SIMPLE := by
  decide

theorem glyph_char_mem (invert : Bool) (contrast luminance : ℚ) :
    glyph_char invert contrast luminance ∈ ASCII_CHARS_SIMPLE := by
  apply getD_ramp_mem
  have : ASCII_LEN_SIMPLE - 1 = 9 := rfl
  omega

theorem glyph_char_is_ramp (invert : Bool) (contrast luminance : ℚ) :
    is_ramp_char (glyph_char invert contrast luminance) = true := by
  unfold is_ramp_char
  exact decide_eq_true (glyph_char_mem invert contrast luminance)

theorem ramp_not_digit : ∀ c ∈ ASCII_CHARS_SIMPLE, c.isDigit = false := by decide

theorem isDigit_not_ramp (c : Char) (h : c.isDigit = true) : is_ramp_char c = false := by
  unfold is_ramp_char
  cases hc : decide (c ∈ ASCII_CHARS_SIMPLE) with
  | false => rfl
  | true =>
    rw [ramp_not_digit c (of_decide_eq_true hc)] at h
    exact absurd h (by decide)

theorem digitChar_isDigit : ∀ d, d < 10 → (Nat.digitChar d).isDigit = true := by decide

theorem natDecimal_isDigit (n : Nat) : ∀ c ∈ natDecimal n, c.isDigit = true := by
  induction n using natDecimal.induct with
  | case1 n h =>
    intro c hc
    rw [natDecimal, dif_pos h] at hc
    simp at hc
    subst hc
    exact digitChar_isDigit n h
  | case2 n h ih =>
    intro c hc
    rw [natDecimal, dif_neg h] at hc
    rcases List.mem_append.mp hc with h1 | h1
    · exact ih c h1
    · simp at h1
      subst h1
      exact digitChar_isDigit (n % 10) (Nat.mod_lt _ (by omega))

theorem countP_natDecimal_ramp (n : Nat) : (natDecimal n).countP is_ramp_char = 0 :=
  List.countP_eq_zero.mpr fun c hc => by
    simp [isDigit_not_ramp c (natDecimal_isDigit n c hc)]

theorem esc_not_mem_natDecimal (n : Nat) : '\x1B' ∉ natDecimal n := fun h => by
  have := natDecimal_isDigit n _ h
  exact absurd this (by decide)

theorem newline_not_mem_natDecimal (n : Nat) : '\n' ∉ natDecimal n := fun h => by
  have := natDecimal_isDigit n _ h
  exact absurd this (by decide)

theorem countP_color_code_ramp (r g b : Nat) : (color_code r g b).countP is_ramp_char = 0 := by
  have h1 : (['\x1B', '[', '3', '8', ';', '2', ';'] : List Char).countP is_ramp_char = 0 := by
    decide
  have h2 : ([';'] : List Char).countP is_ramp_char = 0 := by decide
  have h3 : (['m'] : List Char).countP is_ramp_char = 0 := by decide
  rw [color_code]
  simp only [List.countP_append]
  simp only [h1, h2, h3, countP_natDecimal_ramp]

theorem count_esc_natDecimal (n : Nat) : (natDecimal n).count '\x1B' = 0 :=
  List.count_eq_zero.mpr (esc_not_mem_natDecimal n)

theorem count_newline_natDecimal (n : Nat) : (natDecimal n).count '\n' = 0 :=
  List.count_eq_zero.mpr (newline_not_mem_natDecimal n)

theorem count_esc_color_code (r g b : Nat) : (color_code r g b).count '\x1B' = 1 := by
  have h1 : (['\x1B', '[', '3', '8', ';', '2', ';'] : List Char).count '\x1B' = 1 := by decide
  have h2 : ([';'] : List Char).count '\x1B' = 0 := by decide
  have h3 : (['m'] : List Char).count '\x1B' = 0 := by decide
  simp [color_code, List.count_append, h1, h2, h3, count_esc_natDecimal]

theorem count_newline_color_code (r g b : Nat) : (color_code r g b).count '\n' = 0 := by
  have h1 : (['\x1B', '[', '3', '8', ';', '2', ';'] : List Char).count '\n' = 0 := by decide
  have h2 : ([';'] : List Char).count '\n' = 0 := by decide
  have h3 : (['m'] : List Char).count '\n' = 0 := by decide
  simp [color_code, List.count_append, h1, h2, h3, count_newline_natDecimal]

theorem glyph_char_ne_esc (invert : Bool) (contrast luminance : ℚ) :
    glyph_char invert contrast luminance ≠ '\x1B' := fun h => by
  have := glyph_char_mem invert contrast luminance
  rw [h] at this
  exact absurd this (by decide)

theorem glyph_char_ne_newline (invert : Bool) (contrast luminance : ℚ) :
    glyph_char invert contrast luminance ≠ '\n' := fun h => by
  have := glyph_char_mem invert contrast luminance
  rw [h] at this
  exact absurd this (by decide)

theorem countP_flatMap_const {α β : Type} (p : β → Bool) (l : List α) (f : α → List β)
    (k : Nat) (h : ∀ a ∈ l, (f a).countP p = k) :
    (l.flatMap f).countP p = l.length * k := by
  induction l with
  | nil => simp
  | cons a t ih =>
    rw [List.flatMap_cons, List.countP_append, h a (List.mem_cons_self a t),
      ih (fun x hx => h x (List.mem_cons_of_mem a hx))]
    simp [List.length_cons]
    ring

theorem count_flatMap_const {α β : Type} [BEq β] (c : β) (l : List α) (f : α → List β)
    (k : Nat) (h : ∀ a ∈ l, (f a).count c = k) :
    (l.flatMap f).count c = l.length * k := by
  induction l with
  | nil => simp
  | cons a t ih =>
    rw [List.flatMap_cons, List.count_append, h a (List.mem_cons_self a t),
      ih (fun x hx => h x (List.mem_cons_of_mem a hx))]
    simp [List.length_cons]
    ring

end Charify

namespace Charify

/-- C1: For every invert flag, every contrast factor, and every pixel
luminance in `[0, 255]`, the glyph index computed by `image_to_ascii`
is within `[0, rampLength-1]` (i.e. `[0, 9]`), so indexing the glyph
ramp never goes out of bounds. -/
theorem glyph_index_within_ramp_bounds (invert : Bool) (contrast luminance : ℚ)
    (h0 : 0 ≤ luminance) (h255 : luminance ≤ 255) :
    char_index invert contrast luminance ≤ ASCII_LEN_SIMPLE - 1 ∧
    min (char_index invert contrast luminance) (ASCII_LEN_SIMPLE - 1) < ASCII_LEN_SIMPLE := by
  have hlen10 : ASCII_LEN_SIMPLE = 10 := rfl
  have hbound : char_index invert contrast luminance ≤ ASCII_LEN_SIMPLE - 1 := by
    have hadj := adjusted_luminance_mem contrast luminance h0 h255
    have hm := mapped_intensity_mem invert _ hadj.1 hadj.2
    have h9 : ASCII_LEN_SIMPLE - 1 = 9 := rfl
    unfold char_index
    rw [cast_ramp_top, h9]
    set m := mapped_intensity invert (adjusted_luminance contrast luminance) with hm_def
    have hq0 : 0 ≤ m / 255 * 9 := mul_nonneg (div_nonneg hm.1 (by norm_num)) (by norm_num)
    have hq9 : m / 255 * 9 ≤ 9 := by
      have h1 : m / 255 ≤ 1 := by rw [div_le_one (by norm_num)]; exact hm.2
      nlinarith
    rw [rustRound, if_pos hq0]
    have hfl : ⌊m / 255 * 9 + 1 / 2⌋ < 10 := by
      rw [Int.floor_lt]
      push_cast
      linarith
    omega
  refine ⟨hbound, ?_⟩
  have := min_le_right (char_index invert contrast luminance) (ASCII_LEN_SIMPLE - 1)
  omega

/-- Witness for C1 at `invert = true`, `contrast = 2`,
`luminance = 100`. -/
theorem glyph_index_within_ramp_bounds_witness :
    char_index true 2 100 ≤ ASCII_LEN_SIMPLE - 1 ∧
    min (char_index true 2 100) (ASCII_LEN_SIMPLE - 1) < ASCII_LEN_SIMPLE :=
  glyph_index_within_ramp_bounds true 2 100 (by decide) (by decide)

/-- C2 counterexample: for a 1×1 source image and target width 3 the
code computes height 1 (`(1.65).max(1.0) as u32 = 1`, truncation) while
the claimed formula `max(1, round(1 × 3 × 0.55 / 1)) = max(1, 2) = 2`
rounds, so the two disagree. -/
theorem height_rounding_counterexample :
    new_height 1 1 3 = 1 ∧ new_height_spec 1 1 3 = 2 ∧
    new_height 1 1 3 ≠ new_height_spec 1 1 3 := by
  refine ⟨?_, ?_, ?_⟩
  · norm_num [new_height, ASPECT_RATIO_CORRECTION]
  · norm_num [new_height_spec, rustRound, ASPECT_RATIO_CORRECTION]
    decide
  · norm_num [new_height, new_height_spec, rustRound, ASPECT_RATIO_CORRECTION]
    decide

/-- C2 amended: for every source image with positive width and every
target width, `image_to_ascii` computes the target output height as
`max(1, ⌊sourceHeight × targetWidth × 0.55 / sourceWidth⌋)` — the
scaled value is truncated toward zero (not rounded to nearest) after
the floor of 1 is applied, which coincides with applying `max 1` after
truncation. -/
theorem height_truncates_amended (srcWidth srcHeight width : Nat) (h : 0 < srcWidth) :
    new_height srcWidth srcHeight width =
      max 1 (⌊(srcHeight : ℚ) * (width : ℚ) * ASPECT_RATIO_CORRECTION /
        (srcWidth : ℚ)⌋).toNat := by
  unfold new_height
  set q : ℚ := (srcHeight : ℚ) * (width : ℚ) * ASPECT_RATIO_CORRECTION / (srcWidth : ℚ)
    with hq_def
  rcases le_total q 1 with hq | hq
  · rw [max_eq_right hq]
    have hfl : ⌊q⌋ ≤ 1 := by
      have := Int.floor_le_floor (α := ℚ) hq
      simpa using this
    simp only [Int.floor_one]
    omega
  · rw [max_eq_left hq]
    have hfl : 1 ≤ ⌊q⌋ := by rw [Int.le_floor]; push_cast; exact hq
    omega

/-- Witness for the amended C2 at a 2×3 source image and target
width 4. -/
theorem height_truncates_amended_witness :
    new_height 2 3 4 =
      max 1 (⌊(3 : ℚ) * (4 : ℚ) * ASPECT_RATIO_CORRECTION / (2 : ℚ)⌋).toNat :=
  height_truncates_amended 2 3 4 (by decide)

/-- C3: for every source image with positive width and height and every
target width, the target height computed by `image_to_ascii` is at
least 1. -/
theorem target_height_at_least_one (srcWidth srcHeight width : Nat)
    (hw : 0 < srcWidth) (hh : 0 < srcHeight) :
    1 ≤ new_height srcWidth srcHeight width := by
  unfold new_height
  have h1 : (1 : ℤ) ≤ ⌊max ((srcHeight : ℚ) * (width : ℚ) * ASPECT_RATIO_CORRECTION /
      (srcWidth : ℚ)) 1⌋ := by
    rw [Int.le_floor]
    push_cast
    exact le_max_right _ _
  omega

/-- Witness for C3 at a 7×5 source image and target width 3. -/
theorem target_height_at_least_one_witness : 1 ≤ new_height 7 5 3 :=
  target_height_at_least_one 7 5 3 (by decide) (by decide)

/-- C4: for every luminance `L` in `[0, 255]`, with contrast 1.0, the
glyph produced for `L` with `invert = true` equals the glyph produced
for `255 - L` with `invert = false`. -/
theorem invert_inversion_law (L : ℚ) (h0 : 0 ≤ L) (h255 : L ≤ 255) :
    glyph_char true 1 L = glyph_char false 1 (255 - L) := by
  simp [glyph_char, char_index, mapped_intensity, adjusted_luminance]

/-- Witness for C4 at `L = 100`. -/
theorem invert_inversion_law_witness :
    glyph_char true 1 100 = glyph_char false 1 (255 - 100) :=
  invert_inversion_law 100 (by decide) (by decide)

/-- C5: with contrast 1.0 and `invert = false`, the luminance-to-glyph
index mapping is monotonically non-decreasing on `[0, 255]`. -/
theorem glyph_index_monotone_in_luminance (L1 L2 : ℚ)
    (h0 : 0 ≤ L1) (h12 : L1 ≤ L2) (h255 : L2 ≤ 255) :
    char_index false 1 L1 ≤ char_index false 1 L2 := by
  have h02 : 0 ≤ L2 := le_trans h0 h12
  simp only [char_index, mapped_intensity, adjusted_luminance,
    ne_eq, not_true_eq_false, if_false, Bool.false_eq_true]
  have e1 : 0 ≤ L1 / 255 * ((ASCII_LEN_SIMPLE - 1 : Nat) : ℚ) := by
    rw [cast_ramp_top]
    positivity
  have e2 : 0 ≤ L2 / 255 * ((ASCII_LEN_SIMPLE - 1 : Nat) : ℚ) := by
    rw [cast_ramp_top]
    positivity
  rw [rustRound, rustRound, if_pos e1, if_pos e2]
  have hle : L1 / 255 * ((ASCII_LEN_SIMPLE - 1 : Nat) : ℚ) ≤
      L2 / 255 * ((ASCII_LEN_SIMPLE - 1 : Nat) : ℚ) := by
    gcongr
  have := Int.floor_le_floor (α := ℚ) (by linarith :
    L1 / 255 * ((ASCII_LEN_SIMPLE - 1 : Nat) : ℚ) + 1 / 2 ≤
    L2 / 255 * ((ASCII_LEN_SIMPLE - 1 : Nat) : ℚ) + 1 / 2)
  omega

/-- Witness for C5 at `L1 = 50`, `L2 = 200`. -/
theorem glyph_index_monotone_in_luminance_witness :
    char_index false 1 50 ≤ char_index false 1 200 :=
  glyph_index_monotone_in_luminance 50 200 (by decide) (by decide) (by decide)

/-- C6: for every luminance and contrast factor, the
contrast-adjustment step computes
`clamp(contrast × (luminance − 128) + 128, 0, 255)` (with fixed
midpoint 128) when `contrast ≠ 1.0`, and leaves the luminance unchanged
when `contrast = 1.0`. -/
theorem contrast_adjustment_step_spec (contrast luminance : ℚ) :
    (contrast ≠ 1 → adjusted_luminance contrast luminance =
      min (max (contrast * (luminance - 128) + 128) 0) 255) ∧
    (contrast = 1 → adjusted_luminance contrast luminance = luminance) := by
  constructor <;> intro h <;> simp [adjusted_luminance, rustClamp, h]

/-- Witness for C6 at `contrast = 2`, `luminance = 200`. -/
theorem contrast_adjustment_step_spec_witness :
    adjusted_luminance 2 200 = min (max (2 * ((200 : ℚ) - 128) + 128) 0) 255 :=
  (contrast_adjustment_step_spec 2 200).1 (by decide)

/-- C7: for every decoded frame, the stored frame delay is the decoded
`delay_duration` unchanged (no floor is applied when storing), and the
sleep applied at playback time is `max(d, MIN_FRAME_DELAY_MS)`: exactly
the floor of 20 ms when `d ≤ 20`, and the nominal delay itself when
`d ≥ 20`. -/
theorem playback_delay_floor (width : Nat) (invert use_color : Bool) (contrast : ℚ)
    (f : GifFrame) :
    (convert_frame width invert contrast use_color f).delay =
      delay_duration f.delayNumer f.delayDenom ∧
    effective_delay ((convert_frame width invert contrast use_color f).delay) =
      max (delay_duration f.delayNumer f.delayDenom) MIN_FRAME_DELAY_MS ∧
    (delay_duration f.delayNumer f.delayDenom ≤ MIN_FRAME_DELAY_MS →
      effective_delay ((convert_frame width invert contrast use_color f).delay) =
        MIN_FRAME_DELAY_MS) ∧
    (MIN_FRAME_DELAY_MS ≤ delay_duration f.delayNumer f.delayDenom →
      effective_delay ((convert_frame width invert contrast use_color f).delay) =
        delay_duration f.delayNumer f.delayDenom) :=
  ⟨rfl, rfl, fun h => max_eq_right h, fun h => max_eq_left h⟩

/-- Witness for C7 on a frame with decoded delay `0/1` ms: the applied
sleep is the 20 ms floor. -/
theorem playback_delay_floor_witness :
    effective_delay ((convert_frame 2 false 1 false
      ⟨⟨1, 1, fun _ _ => ⟨0, 0, 0, 255⟩⟩, 0, 1⟩).delay) = MIN_FRAME_DELAY_MS :=
  (playback_delay_floor 2 false false 1
    ⟨⟨1, 1, fun _ _ => ⟨0, 0, 0, 255⟩⟩, 0, 1⟩).2.2.1 (by decide)

/-- C8: if a GIF decodes to zero frames the program fails with the
"GIF contains no frames." error; if it decodes to at least one frame,
no such error is raised and every frame is converted. -/
theorem gif_no_frames_error (width : Nat) (invert use_color : Bool) (contrast : ℚ)
    (frames : List GifFrame) :
    (frames = [] → process_gif width invert contrast use_color frames =
      Except.error "GIF contains no frames.") ∧
    (frames ≠ [] → process_gif width invert contrast use_color frames =
      Except.ok (frames.map (convert_frame width invert contrast use_color))) := by
  constructor <;> intro h <;> simp [process_gif, List.isEmpty_iff, h]

/-- Witness for C8 on a one-frame GIF: the result is `ok`, not the
"no frames" error. -/
theorem gif_no_frames_error_witness :
    process_gif 2 false 1 false [⟨⟨1, 1, fun _ _ => ⟨0, 0, 0, 255⟩⟩, 0, 1⟩] =
      Except.ok ([⟨⟨1, 1, fun _ _ => ⟨0, 0, 0, 255⟩⟩, 0, 1⟩].map
        (convert_frame 2 false 1 false)) :=
  (gif_no_frames_error 2 false false 1 _).2 (List.cons_ne_nil _ _)

/-- C10: for every decoded frame delay fraction `numer/denom` (with
nonzero denominator), the stored nominal delay `delay_duration` is the
truncating integer division: it is the unique `d` with
`d * denom ≤ numer < (d + 1) * denom`, so any fractional-millisecond
part is discarded. -/
theorem frame_delay_truncating_division (numer denom : Nat) (h : 0 < denom) :
    delay_duration numer denom * denom ≤ numer ∧
    numer < (delay_duration numer denom + 1) * denom := by
  unfold delay_duration
  refine ⟨Nat.div_mul_le_self _ _, ?_⟩
  calc numer < numer / denom * denom + denom := Nat.lt_div_mul_add h
  _ = (numer / denom + 1) * denom := by ring

/-- Witness for C10 at the fraction `100/3` ms, stored as 33 ms. -/
theorem frame_delay_truncating_division_witness :
    delay_duration 100 3 = 33 ∧
    (delay_duration 100 3 * 3 ≤ 100 ∧ 100 < (delay_duration 100 3 + 1) * 3) :=
  ⟨by decide, frame_delay_truncating_division 100 3 (by decide)⟩

end Charify

namespace Charify

theorem length_gray_line (invert : Bool) (contrast : ℚ) (buf : LumaImage) (y : Nat) :
    (gray_line invert contrast buf y).length = buf.width := by
  simp [gray_line]

theorem countP_gray_line (invert : Bool) (contrast : ℚ) (buf : LumaImage) (y : Nat) :
    (gray_line invert contrast buf y).countP is_ramp_char = buf.width := by
  rw [gray_line, List.countP_map]
  simp only [Function.comp_def]
  have h := List.countP_eq_length.mpr
    (fun x (_ : x ∈ List.range buf.width) =>
      glyph_char_is_ramp invert contrast ((buf.pixel x y : ℚ)))
  rw [h, List.length_range]

theorem esc_not_mem_gray_line (invert : Bool) (contrast : ℚ) (buf : LumaImage) (y : Nat) :
    '\x1B' ∉ gray_line invert contrast buf y := by
  rw [gray_line]
  intro hmem
  rw [List.mem_map] at hmem
  obtain ⟨x, _, hx⟩ := hmem
  exact glyph_char_ne_esc invert contrast _ hx

theorem newline_not_mem_gray_line (invert : Bool) (contrast : ℚ) (buf : LumaImage) (y : Nat) :
    '\n' ∉ gray_line invert contrast buf y := by
  rw [gray_line]
  intro hmem
  rw [List.mem_map] at hmem
  obtain ⟨x, _, hx⟩ := hmem
  exact glyph_char_ne_newline invert contrast _ hx

theorem count_newline_gray_line (invert : Bool) (contrast : ℚ) (buf : LumaImage) (y : Nat) :
    (gray_line invert contrast buf y).count '\n' = 0 :=
  List.count_eq_zero.mpr (newline_not_mem_gray_line invert contrast buf y)

theorem count_esc_singleton_glyph (invert : Bool) (contrast luminance : ℚ) :
    ([glyph_char invert contrast luminance] : List Char).count '\x1B' = 0 :=
  List.count_eq_zero.mpr (by
    intro h
    rw [List.mem_singleton] at h
    exact glyph_char_ne_esc invert contrast luminance h.symm)

theorem count_newline_singleton_glyph (invert : Bool) (contrast luminance : ℚ) :
    ([glyph_char invert contrast luminance] : List Char).count '\n' = 0 :=
  List.count_eq_zero.mpr (by
    intro h
    rw [List.mem_singleton] at h
    exact glyph_char_ne_newline invert contrast luminance h.symm)

theorem countP_color_pixel (invert : Bool) (contrast : ℚ) (buf : Image) (x y : Nat) :
    (color_pixel_chars invert contrast buf x y).countP is_ramp_char = 1 := by
  rw [color_pixel_chars, List.countP_append, countP_color_code_ramp]
  simp [List.countP_cons, glyph_char_is_ramp]

theorem countP_color_line (invert : Bool) (contrast : ℚ) (buf : Image) (y : Nat) :
    (color_line invert contrast buf y).countP is_ramp_char = buf.width := by
  rw [color_line, countP_flatMap_const is_ramp_char _ _ 1
    (fun x _ => countP_color_pixel invert contrast buf x y), List.length_range, mul_one]

theorem count_esc_color_pixel (invert : Bool) (contrast : ℚ) (buf : Image) (x y : Nat) :
    (color_pixel_chars invert contrast buf x y).count '\x1B' = 1 := by
  rw [color_pixel_chars, List.count_append, count_esc_color_code,
    count_esc_singleton_glyph]

theorem count_esc_color_line (invert : Bool) (contrast : ℚ) (buf : Image) (y : Nat) :
    (color_line invert contrast buf y).count '\x1B' = buf.width := by
  rw [color_line, count_flatMap_const '\x1B' _ _ 1
    (fun x _ => count_esc_color_pixel invert contrast buf x y), List.length_range, mul_one]

theorem count_newline_color_pixel (invert : Bool) (contrast : ℚ) (buf : Image) (x y : Nat) :
    (color_pixel_chars invert contrast buf x y).count '\n' = 0 := by
  rw [color_pixel_chars, List.count_append, count_newline_color_code,
    count_newline_singleton_glyph]

theorem count_newline_color_line (invert : Bool) (contrast : ℚ) (buf : Image) (y : Nat) :
    (color_line invert contrast buf y).count '\n' = 0 := by
  rw [color_line, count_flatMap_const '\n' _ _ 0
    (fun x _ => count_newline_color_pixel invert contrast buf x y), mul_zero]

theorem count_newline_image_to_ascii (img : Image) (width : Nat) (invert : Bool)
    (contrast : ℚ) (use_color : Bool) :
    (image_to_ascii img width invert contrast use_color).count '\n' =
      new_height img.width img.height width := by
  cases use_color
  · rw [show image_to_ascii img width invert contrast false =
        (List.range (final_img_buffer_gray img width).height).flatMap (fun y =>
          gray_line invert contrast (final_img_buffer_gray img width) y ++ ['\n']) from rfl]
    rw [count_flatMap_const '\n' _ _ 1 (fun y _ => by
      rw [List.count_append, count_newline_gray_line]
      decide), List.length_range, mul_one]
    rfl
  · rw [show image_to_ascii img width invert contrast true =
        (List.range (final_img_buffer_color img width).height).flatMap (fun y =>
          color_line invert contrast (final_img_buffer_color img width) y ++
            reset_code ++ ['\n']) from rfl]
    rw [count_flatMap_const '\n' _ _ 1 (fun y _ => by
      rw [List.count_append, List.count_append, count_newline_color_line]
      decide), List.length_range, mul_one]
    rfl

end Charify

namespace Charify

/-- C9: for every decoded buffer and configuration, the string returned
by `image_to_ascii` consists of exactly `targetHeight` newline-terminated
lines; in grayscale mode each line is exactly `targetWidth` ramp glyphs
with no escape sequences, and in color mode each line carries exactly
`targetWidth` ramp glyphs, one foreground-color escape per glyph plus
one color-reset escape immediately before the newline (`targetWidth + 1`
ESC characters per line in total). -/
theorem ascii_output_line_structure (img : Image) (width : Nat) (invert : Bool)
    (contrast : ℚ) (use_color : Bool) :
    (image_to_ascii img width invert contrast use_color).count '\n' =
      new_height img.width img.height width ∧
    (use_color = false →
      image_to_ascii img width invert contrast use_color =
        (List.range (new_height img.width img.height width)).flatMap (fun y =>
          gray_line invert contrast (final_img_buffer_gray img width) y ++ ['\n']) ∧
      ∀ y : Nat,
        (gray_line invert contrast (final_img_buffer_gray img width) y).length = width ∧
        (gray_line invert contrast (final_img_buffer_gray img width) y).countP
          is_ramp_char = width ∧
        '\x1B' ∉ gray_line invert contrast (final_img_buffer_gray img width) y) ∧
    (use_color = true →
      image_to_ascii img width invert contrast use_color =
        (List.range (new_height img.width img.height width)).flatMap (fun y =>
          color_line invert contrast (final_img_buffer_color img width) y ++
            reset_code ++ ['\n']) ∧
      ∀ y : Nat,
        (color_line invert contrast (final_img_buffer_color img width) y).countP
          is_ramp_char = width ∧
        (color_line invert contrast (final_img_buffer_color img width) y ++
          reset_code).count '\x1B' = width + 1) := by
  refine ⟨count_newline_image_to_ascii img width invert contrast use_color,
    fun hc => ?_, fun hc => ?_⟩
  · subst hc
    exact ⟨rfl, fun y => ⟨length_gray_line invert contrast _ y,
      countP_gray_line invert contrast _ y,
      esc_not_mem_gray_line invert contrast _ y⟩⟩
  · subst hc
    refine ⟨rfl, fun y => ⟨countP_color_line invert contrast _ y, ?_⟩⟩
    have hr : (reset_code.count '\x1B') = 1 := by decide
    rw [List.count_append, count_esc_color_line, hr]
    rfl

/-- Witness for C9: the grayscale rendering of a 1×1 image at width 2,
projected at row 0. -/
theorem ascii_output_line_structure_witness :
    (gray_line false 1 (final_img_buffer_gray ⟨1, 1, fun _ _ => ⟨0, 0, 0, 255⟩⟩ 2) 0).length
      = 2 ∧
    (gray_line false 1 (final_img_buffer_gray ⟨1, 1, fun _ _ => ⟨0, 0, 0, 255⟩⟩ 2) 0).countP
      is_ramp_char = 2 :=
  ⟨(((ascii_output_line_structure ⟨1, 1, fun _ _ => ⟨0, 0, 0, 255⟩⟩ 2 false 1
      false).2.1 rfl).2 0).1,
   (((ascii_output_line_structure ⟨1, 1, fun _ _ => ⟨0, 0, 0, 255⟩⟩ 2 false 1
      false).2.1 rfl).2 0).2.1⟩

end Charify
